import Mathlib

/-!
Shallow embedding of the core pipeline of the youtube_summary_to_notion
repository: the text segmenters (`split_text`, `chunk_text`), the chunk
summarizer and aggregator (`summarize_long_caption`), the Notion block
builder and idempotent writer (`save_to_notion`), and the description
truncation helper (`truncate_description`).

Python strings are modelled as `List Char`.  The two main source files are
embedded in separate namespaces:
  * `Summary`   — src/summary.py
  * `LambdaPkg` — src/lambda_package/lambda_function.py
-/

/-- Python default `str.strip()` whitespace characters (ASCII range). -/
def isSpace (c : Char) : Bool :=
  c = ' ' || c = '\t' || c = '\n' || c = '\r' || c = '\x0b' || c = '\x0c'

/-- `s.strip() == ""` in Python: every character is whitespace. -/
def isBlank (l : List Char) : Bool := l.all isSpace

/-- Worker for Python `str.split(sep)`: `acc` holds the current piece reversed. -/
def pySplitAux (sep : Char) : List Char → List Char → List (List Char)
  | [], acc => [acc.reverse]
  | c :: rest, acc =>
    if c = sep then acc.reverse :: pySplitAux sep rest []
    else pySplitAux sep rest (c :: acc)

/-- Python `str.split(sep)` (single-character separator, empty pieces kept). -/
def pySplit (sep : Char) (l : List Char) : List (List Char) := pySplitAux sep l []

/-- Python `sep.join(pieces)`. -/
def joinWith (sep : List Char) : List (List Char) → List Char
  | [] => []
  | [x] => x
  | x :: y :: rest => x ++ sep ++ joinWith sep (y :: rest)

/-- Python slicing loop `[l[i:i+m] for i in range(0, len(l), m)]`, with fuel.
With `fuel = l.length` and `1 ≤ m` the fuel never runs out (Python raises
`ValueError` for `m = 0`, which is outside every claim's scope). -/
def slicesFuel (m : Nat) : Nat → List Char → List (List Char)
  | _, [] => []
  | 0, _ => []
  | fuel + 1, c :: rest => (c :: rest).take m :: slicesFuel m fuel ((c :: rest).drop m)

/-- Python `[l[i:i+m] for i in range(0, len(l), m)]`. -/
def slices (m : Nat) (l : List Char) : List (List Char) := slicesFuel m l.length l

/-- Decimal rendering of a natural number, as Python `str(i)` / f-string. -/
def natChars (n : Nat) : List Char := (Nat.repr n).data

/-- Boolean list-prefix test. -/
def isPrefixB : List Char → List Char → Bool
  | [], _ => true
  | _ :: _, [] => false
  | a :: as, b :: bs => a = b && isPrefixB as bs

/-- Boolean substring test, Notion's `"contains"` filter on a text property. -/
def isInfixB (needle : List Char) : List Char → Bool
  | [] => isPrefixB needle []
  | c :: rest => isPrefixB needle (c :: rest) || isInfixB needle rest

/-- Characters matched by the character class of the URL regular expression
`https?://[\w/:%#$&?()~.=+-]+` in lambda_function.py (`\w` modelled over the
ASCII range: letters, digits and underscore). -/
def isUrlChar (c : Char) : Bool :=
  c.isAlphanum || c = '_' || c = '/' || c = ':' || c = '%' || c = '#' ||
  c = '$' || c = '&' || c = '?' || c = '(' || c = ')' || c = '~' ||
  c = '.' || c = '=' || c = '+' || c = '-'

/-- Length of the run of URL characters at the head of the list. -/
def countLeading (p : Char → Bool) : List Char → Nat
  | [] => 0
  | c :: rest => if p c then countLeading p rest + 1 else 0

/-- Length of the regex match `https?://[...]+` anchored at the head of the
list, or 0 when there is no match there.  The optional `s` and the greedy
`+` are resolved exactly as Python's `re` engine does. -/
def headUrlLen (l : List Char) : Nat :=
  match l with
  | 'h' :: 't' :: 't' :: 'p' :: rest =>
    match rest with
    | 's' :: ':' :: '/' :: '/' :: rest2 =>
      let k := countLeading isUrlChar rest2
      if k = 0 then 0 else 8 + k
    | ':' :: '/' :: '/' :: rest2 =>
      let k := countLeading isUrlChar rest2
      if k = 0 then 0 else 7 + k
    | _ => 0
  | _ => 0

/-- Combined `re.split(url_pattern, line)` and `re.findall(url_pattern, line)`:
returns (parts, urls) where parts are the texts between the non-overlapping
leftmost matches.  `acc` is the current non-match run, reversed.  With
`fuel = l.length` the fuel never runs out, since each step consumes at least
one character; the fuel-exhausted branch keeps the unscanned rest. -/
def reSplitFindF : Nat → List Char → List Char → List (List Char) × List (List Char)
  | _, [], acc => ([acc.reverse], [])
  | 0, l, acc => ([acc.reverse ++ l], [])
  | fuel + 1, c :: rest, acc =>
    let n := headUrlLen (c :: rest)
    if n = 0 then reSplitFindF fuel rest (c :: acc)
    else
      let pr := reSplitFindF fuel ((c :: rest).drop n) []
      (acc.reverse :: pr.1, (c :: rest).take n :: pr.2)

/-- `(re.split(url_pattern, line), re.findall(url_pattern, line))`. -/
def reSplitFind (l : List Char) : List (List Char) × List (List Char) :=
  reSplitFindF l.length l []

/-- Characters kept by the segmentation round-trip: everything except
whitespace and the sentence terminator `。`. -/
def keepChar (c : Char) : Bool := !(isSpace c || c = '。')

/-- A Notion rich-text run: plain text or a link-annotated run. -/
inductive RichText where
  | text (content : List Char)
  | link (content : List Char) (url : List Char)

/-- The text content of a rich-text run. -/
def runText : RichText → List Char
  | RichText.text c => c
  | RichText.link c _ => c

/-- Concatenated contents of a sequence of rich-text runs. -/
def runContents (rs : List RichText) : List Char := (rs.map runText).flatten

/-- Interleaving of `re.split` parts and `re.findall` urls, as the loop in
save_to_notion does: each non-empty text part, then the url at the same
index (there is always one url fewer than there are parts). -/
def interleaveRuns : List (List Char) → List (List Char) → List RichText
  | [], _ => []
  | p :: ps, [] => (if p ≠ [] then [RichText.text p] else []) ++ interleaveRuns ps []
  | p :: ps, u :: us =>
    (if p ≠ [] then [RichText.text p] else []) ++ (RichText.link u u :: interleaveRuns ps us)

/-- A Notion block as built by save_to_notion. -/
inductive Block where
  | paragraph (rich : List RichText)
  | heading2 (rich : List RichText)
  | toggle (label : List Char) (children : List Block)

/-- MAX_DESCRIPTION_LENGTH, identical in summary.py and lambda_function.py. -/
def MAX_DESCRIPTION_LENGTH : Nat := 1500

/-- truncate_description, identical in summary.py and lambda_function.py. -/
def truncate_description (d : List Char) : List Char :=
  if MAX_DESCRIPTION_LENGTH < d.length then
    d.take (MAX_DESCRIPTION_LENGTH - 3) ++ "...".data
  else d

/-- Video URL as constructed in get_latest_videos:
`f"https://www.youtube.com/watch?v={video_id}"`. -/
def watchUrl (video_id : List Char) : List Char :=
  "https://www.youtube.com/watch?v=".data ++ video_id

namespace Summary

/-- Accumulator state of the split_text loop in summary.py: the completed
chunks (`result`) and the running chunk (`current_chunk`). -/
structure SegState where
  result : List (List Char)
  cur : List Char

/-- `if current_chunk: result.append(current_chunk)`. -/
def flushIf (st : SegState) : List (List Char) :=
  if st.cur ≠ [] then st.result ++ [st.cur] else st.result

/-- Body of the inner sentence loop of split_text (summary.py).  `lastS` is
`sentences[-1]`; the terminator is re-appended exactly when the sentence is
not equal (by value, as in Python) to the last sentence. -/
def procSentence (m : Nat) (lastS : List Char) (st : SegState) (s : List Char) : SegState :=
  if isBlank s then st
  else if m < s.length then
    { result := flushIf st ++ slices m s, cur := [] }
  else
    let swp := s ++ (if s ≠ lastS then ['。'] else [])
    if (st.cur ++ swp).length ≤ m then { st with cur := st.cur ++ swp }
    else { result := flushIf st, cur := swp }

/-- Body of the paragraph loop of split_text (summary.py). -/
def procParagraph (m : Nat) (st : SegState) (p : List Char) : SegState :=
  if isBlank p then st
  else
    let ss := pySplit '。' p
    ss.foldl (procSentence m (ss.getLastD [])) st

/-- split_text from summary.py (lines 216-272): newline paragraphs, `。`
sentences, accumulation up to max_length, force-slicing of over-long
sentences. -/
def split_text (text : List Char) (m : Nat) : List (List Char) :=
  if text = [] then []
  else flushIf ((pySplit '\n' text).foldl (procParagraph m) ⟨[], []⟩)

/-- Accumulator state of the chunk_text loop in summary.py. -/
structure ChunkState where
  chunks : List (List Char)
  cur : List Char
  curLen : Nat

/-- Body of the sentence loop of chunk_text (summary.py): the terminator is
appended to every kept sentence, and there is no force-slicing. -/
def chunkStep (chunk_size : Nat) (st : ChunkState) (s : List Char) : ChunkState :=
  if isBlank s then st
  else
    let s2 := s ++ ['。']
    if chunk_size < st.curLen + s2.length then
      { chunks := if st.cur ≠ [] then st.chunks ++ [st.cur] else st.chunks
        cur := s2, curLen := s2.length }
    else { st with cur := st.cur ++ s2, curLen := st.curLen + s2.length }

/-- chunk_text from summary.py (lines 342-370). -/
def chunk_text (text : List Char) (chunk_size : Nat) : List (List Char) :=
  let st := (pySplit '。' text).foldl (chunkStep chunk_size) ⟨[], [], 0⟩
  if st.cur ≠ [] then st.chunks ++ [st.cur] else st.chunks

/-- Text of the per-chunk prompt template before `{chunk}`. -/
def chunkPromptPre : List Char :=
  "\n    以下の字幕テキスト(500文字程度)を要約してください。\n    できるだけ具体的に、以下の形式で出力してください：\n\n    【区間の要点】\n    • この部分で話された重要な内容を2-3点で箇条書き\n    \n    【キーワード】\n    • この部分で出てきた重要な用語や概念を2-3個\n    \n    字幕テキスト:\n    ".data

/-- Text of the per-chunk prompt template after `{chunk}`. -/
def chunkPromptSuf : List Char := "\n    ".data

/-- `chunk_prompt_template.format(chunk=chunk)`. -/
def chunkPrompt (chunk : List Char) : List Char := chunkPromptPre ++ chunk ++ chunkPromptSuf

/-- `f"=== チャンク {i}/{n} の要約 ===\n"`, the marker prefixed to a
successful chunk summary. -/
def okMarker (i n : Nat) : List Char :=
  "=== チャンク ".data ++ natChars i ++ "/".data ++ natChars n ++ " の要約 ===\n".data

/-- `f"=== チャンク {i} の要約に失敗 ==="`, the record appended when the
generation call for chunk `i` raised. -/
def failMarker (i : Nat) : List Char :=
  "=== チャンク ".data ++ natChars i ++ " の要約に失敗 ===".data

/-- The per-chunk loop of summarize_long_caption (summary.py, lines
395-417): one generation call per chunk, in order; on success the summary is
recorded behind its marker, on failure the failure marker is recorded and
the loop continues with the next chunk. -/
def mkSummaries (gen : List Char → Except (List Char) (List Char))
    (chunks : List (List Char)) : List (List Char) :=
  (List.enumFrom 1 chunks).map fun ic =>
    match gen (chunkPrompt ic.2) with
    | Except.ok s => okMarker ic.1 chunks.length ++ s
    | Except.error _ => failMarker ic.1

/-- Text of the final aggregation template before `{summaries}`. -/
def finalPromptPre : List Char :=
  "\n    以下の各チャンク(約500文字ごと)の要約を統合して、動画全体の内容をまとめてください：\n\n    【動画全体の概要】\n    • 全体を通して話された主要なテーマや結論\n\n    【重要ポイント】\n    • 各チャンクから抽出された重要な点を統合して3-5点に\n\n    【キーワード一覧】\n    • 動画全体で重要な用語や概念を最大5つ\n\n    要約群:\n    ".data

/-- Text of the final aggregation template after `{summaries}`. -/
def finalPromptSuf : List Char := "\n    ".data

/-- `final_prompt = template.format(summaries="\n\n".join(summaries))`. -/
def finalPrompt (summaries : List (List Char)) : List Char :=
  finalPromptPre ++ joinWith "\n\n".data summaries ++ finalPromptSuf

/-- Header of the fallback string returned when the final aggregation call
fails: `"=== 各チャンクの要約 ===\n\n"`. -/
def fallbackHeader : List Char := "=== 各チャンクの要約 ===\n\n".data

/-- summarize_long_caption from summary.py (lines 372-450).  `genChunk` is
the generation service for the per-chunk calls, `genFinal` for the single
aggregation call; a Python exception is an `Except.error`. -/
def summarize_long_caption (genChunk genFinal : List Char → Except (List Char) (List Char))
    (caption : List Char) : List Char :=
  let summaries := mkSummaries genChunk (chunk_text caption 500)
  match genFinal (finalPrompt summaries) with
  | Except.ok s => s
  | Except.error _ => fallbackHeader ++ joinWith "\n\n".data summaries

end Summary

namespace LambdaPkg

/-- split_text from lambda_function.py (lines 215-244): splits on newlines
only, keeps blank lines as `"\n"` layout markers, flushes when the running
chunk would exceed max_length, and never force-splits a long paragraph. -/
def split_text (text : List Char) (max_length : Nat) : List (List Char) :=
  if text = [] then []
  else
    let st := (pySplit '\n' text).foldl
      (fun (st : List (List Char) × List Char) p =>
        let st1 :=
          if max_length < (st.2 ++ p ++ ['\n']).length then
            (if st.2 ≠ [] then st.1 ++ [st.2] else st.1, ([] : List Char))
          else st
        if isBlank p then (st1.1, st1.2 ++ ['\n'])
        else (st1.1, st1.2 ++ p ++ ['\n']))
      ([], [])
    if st.2 ≠ [] then st.1 ++ [st.2] else st.1

/-- chunk_text from lambda_function.py (lines 388-398): plain fixed-width
slicing `[text[i:i+chunk_size] for i in range(0, len(text), chunk_size)]`. -/
def chunk_text (text : List Char) (chunk_size : Nat) : List (List Char) :=
  slices chunk_size text

/-- One per-chunk summary entry as appended by summarize_long_caption
(lambda_function.py): `{"chunk_number": i, "total_chunks": n, "content": s}`. -/
structure SummaryRecord where
  chunk_number : Nat
  total_chunks : Nat
  content : List Char
deriving DecidableEq

/-- Text of the per-chunk prompt template before `{chunk}`. -/
def chunkPromptPre : List Char :=
  "\n    【要約対象の字幕テキスト】\n    ".data

/-- Text of the per-chunk prompt template after `{chunk}`. -/
def chunkPromptSuf : List Char :=
  "\n\n    【要約の条件】\n    1. タイトルをつける\n    2. 重要ポイントを3~4個で箇条書きにする\n    3. 「だ・である」調で書く\n    4. 全体を300文字以内でまとめる\n\n    以下の形式で要約を作成してください：\n\n    【タイトル】\n    （ここにタイトルを記入）\n\n    【重要ポイント】\n    • （ポイント1）\n    • （ポイント2）\n    • （ポイント3）\n    ※必要に応じて4つ目のポイントを追加\n\n    【要約】\n    （ここに要約を記入）\n    ".data

/-- `chunk_prompt_template.format(chunk=chunk)`. -/
def chunkPrompt (chunk : List Char) : List Char := chunkPromptPre ++ chunk ++ chunkPromptSuf

/-- `f"チャンク {i} の要約中にエラー: {e}"`, the content recorded for a
chunk whose generation call raised `e`. -/
def errNote (i : Nat) (e : List Char) : List Char :=
  "チャンク ".data ++ natChars i ++ " の要約中にエラー: ".data ++ e

/-- The record appended for the chunk at (1-based) index `ic.1`: the
generated summary on success, the error note on failure; `n` is the total
chunk count. -/
def summaryRecord (gen : List Char → Except (List Char) (List Char)) (n : Nat)
    (ic : Nat × List Char) : SummaryRecord :=
  match gen (chunkPrompt ic.2) with
  | Except.ok s => ⟨ic.1, n, s⟩
  | Except.error e => ⟨ic.1, n, errNote ic.1 e⟩

/-- summarize_long_caption from lambda_function.py (lines 400-460): one
generation call per chunk of `chunk_text(caption, 3000)`, in order; a
failure is recorded as data and the loop continues. -/
def summarize_long_caption (gen : List Char → Except (List Char) (List Char))
    (caption : List Char) : List SummaryRecord :=
  let chunks := chunk_text caption 3000
  (List.enumFrom 1 chunks).map (summaryRecord gen chunks.length)

/-- Observable events of the summarize_long_caption loop: issuing the
generation request for chunk `i`, and `time.sleep(secs)`. -/
inductive Ev where
  | request (i : Nat)
  | sleep (secs : Nat)
deriving DecidableEq

/-- Events of one loop iteration: the request always happens; `time.sleep(2)`
sits inside the `try` block after the append, so it runs only when the
generation call succeeded. -/
def chunkEvents (gen : List Char → Except (List Char) (List Char))
    (ic : Nat × List Char) : List Ev :=
  match gen (chunkPrompt ic.2) with
  | Except.ok _ => [Ev.request ic.1, Ev.sleep 2]
  | Except.error _ => [Ev.request ic.1]

/-- The event trace of the per-chunk loop of summarize_long_caption. -/
def summarizeEvents (gen : List Char → Except (List Char) (List Char))
    (caption : List Char) : List Ev :=
  (List.enumFrom 1 (chunk_text caption 3000)).flatMap (chunkEvents gen)

/-- Two adjacent events are both generation requests. -/
def twoReqs : Ev → Ev → Bool
  | Ev.request _, Ev.request _ => true
  | _, _ => false

/-- No two consecutive events of the trace are generation requests, i.e.
something (the rate-limit pause) separates every pair of requests. -/
def noBackToBack : List Ev → Bool
  | [] => true
  | [_] => true
  | a :: b :: rest => !(twoReqs a b) && noBackToBack (b :: rest)

/-- VideoInfo from lambda_function.py.  `caption_summary` is the list of
per-chunk records; Python `None` and `[]` are both falsy in the
`if video.caption_summary:` test, so the empty list models both. -/
structure VideoInfo where
  video_id : List Char
  title : List Char
  description : List Char
  published_at : List Char
  channel_title : List Char
  url : List Char
  thumbnail_url : List Char
  caption_summary : List SummaryRecord

/-- The rich-text runs built for one non-blank description line: the texts
between URL matches interleaved with link-annotated URL runs. -/
def lineRichText (line : List Char) : List RichText :=
  interleaveRuns (reSplitFind line).1 (reSplitFind line).2

/-- The paragraph blocks built from the description, one per line; a blank
line becomes a paragraph with one empty text run. -/
def descriptionBlocks (description : List Char) : List Block :=
  (pySplit '\n' description).map fun line =>
    if isBlank line then Block.paragraph [RichText.text []]
    else Block.paragraph (lineRichText line)

/-- The full block list built by save_to_notion: a toggle holding the
description blocks, then (when a caption summary exists) the heading and one
paragraph per summary record, formatted `f"{i}/{n} \n{content}"`. -/
def videoBlocks (v : VideoInfo) : List Block :=
  [Block.toggle "概要欄".data (descriptionBlocks v.description)] ++
  (if v.caption_summary ≠ [] then
    [Block.heading2 [RichText.text "字幕要約".data]] ++
    v.caption_summary.map (fun r => Block.paragraph
      [RichText.text (natChars r.chunk_number ++ "/".data ++ natChars r.total_chunks ++
        " \n".data ++ r.content)])
  else [])

/-- A document stored in the Notion database, with the typed properties and
body blocks that notion_client.pages.create receives. -/
structure StoredPage where
  title : List Char
  url : List Char
  channel : List Char
  published_at : List Char
  cover_url : List Char
  children : List Block

/-- Outcome of one save_to_notion invocation. -/
inductive WriteOutcome where
  | Created
  | Skipped
deriving DecidableEq

/-- The duplicate-check query: all documents whose URL property contains the
video id (`filter: {"property": "URL", "rich_text": {"contains": video_id}}`). -/
def queryUrlContains (store : List StoredPage) (key : List Char) : List StoredPage :=
  store.filter fun p => isInfixB key p.url

/-- The page created for a video. -/
def mkPage (v : VideoInfo) : StoredPage :=
  ⟨v.title, v.url, v.channel_title, v.published_at, v.thumbnail_url, videoBlocks v⟩

/-- save_to_notion from lambda_function.py (lines 246-386) against a store
modelled as the list of existing documents: query first, skip when any
document matches, otherwise create exactly one page. -/
def save_to_notion (store : List StoredPage) (v : VideoInfo) :
    List StoredPage × WriteOutcome :=
  match queryUrlContains store v.video_id with
  | _ :: _ => (store, WriteOutcome.Skipped)
  | [] => (store ++ [mkPage v], WriteOutcome.Created)

end LambdaPkg

/-- Alternating concatenation of regex split parts and matches:
`parts[0] ++ urls[0] ++ parts[1] ++ urls[1] ++ ...`. -/
def altJoin : List (List Char) → List (List Char) → List Char
  | [], _ => []
  | p :: ps, [] => p ++ altJoin ps []
  | p :: ps, u :: us => p ++ u ++ altJoin ps us

/-- The kept content accumulated in a split_text loop state: completed
chunks plus the running chunk, restricted to the kept characters. -/
def Summary.segContent (st : Summary.SegState) : List Char :=
  (st.result.flatten ++ st.cur).filter keepChar

/-- The kept content accumulated in a chunk_text loop state. -/
def Summary.chunkContent (st : Summary.ChunkState) : List Char :=
  (st.chunks.flatten ++ st.cur).filter keepChar

/-! ### Helper lemmas -/

theorem dotData_length : ("...".data).length = 3 := by decide

theorem isPrefixB_self (l : List Char) : isPrefixB l l = true := by
  induction l with
  | nil => rfl
  | cons c rest ih => simp [isPrefixB, ih]

theorem isInfixB_append_self (a k : List Char) : isInfixB k (a ++ k) = true := by
  induction a with
  | nil => cases k with
    | nil => rfl
    | cons c rest => simpa [isInfixB] using Or.inl (isPrefixB_self (c :: rest))
  | cons c rest ih => simp [isInfixB, ih]

theorem slicesFuel_mem_length (m : Nat) :
    ∀ fuel l c, c ∈ slicesFuel m fuel l → c.length ≤ m := by
  intro fuel
  induction fuel with
  | zero =>
    intro l c hc
    cases l <;> simp [slicesFuel] at hc
  | succ fuel ih =>
    intro l c hc
    cases l with
    | nil => simp [slicesFuel] at hc
    | cons x rest =>
      simp only [slicesFuel, List.mem_cons] at hc
      rcases hc with h | h
      · subst h
        exact List.length_take_le m (x :: rest)
      · exact ih _ _ h

theorem slicesFuel_flatten (m : Nat) (hm : 1 ≤ m) :
    ∀ fuel l, l.length ≤ fuel → (slicesFuel m fuel l).flatten = l := by
  intro fuel
  induction fuel with
  | zero =>
    intro l hl
    have : l = [] := List.eq_nil_of_length_eq_zero (Nat.le_zero.mp hl)
    subst this; rfl
  | succ fuel ih =>
    intro l hl
    cases l with
    | nil => rfl
    | cons x rest =>
      have hdrop : ((x :: rest).drop m).length ≤ fuel := by
        rw [List.length_drop]
        have : (x :: rest).length - m ≤ (x :: rest).length - 1 :=
          Nat.sub_le_sub_left hm _
        simpa using Nat.le_trans this (by simpa using hl)
      simp only [slicesFuel, List.flatten_cons, ih _ hdrop]
      exact List.take_append_drop m (x :: rest)

theorem blank_filter_keep {s : List Char} (h : isBlank s = true) :
    s.filter keepChar = [] := by
  rw [List.filter_eq_nil_iff]
  intro c hc
  have := (List.all_eq_true.mp h) c hc
  simp [keepChar, this]

theorem pySplitAux_ne_nil (sep : Char) (l acc : List Char) :
    pySplitAux sep l acc ≠ [] := by
  induction l generalizing acc with
  | nil => simp [pySplitAux]
  | cons c rest ih =>
    by_cases h : c = sep <;> simp [pySplitAux, h, ih]

theorem joinWith_cons_of_ne (sep : List Char) (a : List Char) {L : List (List Char)}
    (h : L ≠ []) : joinWith sep (a :: L) = a ++ sep ++ joinWith sep L := by
  cases L with
  | nil => exact absurd rfl h
  | cons b t => rfl

theorem pySplitAux_joinWith (sep : Char) (l acc : List Char) :
    joinWith [sep] (pySplitAux sep l acc) = acc.reverse ++ l := by
  induction l generalizing acc with
  | nil => simp [pySplitAux, joinWith]
  | cons c rest ih =>
    by_cases h : c = sep
    · subst h
      rw [pySplitAux, if_pos rfl,
        joinWith_cons_of_ne _ _ (pySplitAux_ne_nil c rest []), ih]
      simp
    · rw [pySplitAux, if_neg h, ih]
      simp

theorem filter_joinWith_single {p : Char → Bool} {sep : Char} (hp : p sep = false) :
    ∀ L : List (List Char),
      (joinWith [sep] L).filter p = (L.map (List.filter p)).flatten
  | [] => by simp [joinWith]
  | [x] => by simp [joinWith]
  | x :: y :: rest => by
    have ih := filter_joinWith_single hp (y :: rest)
    simp only [joinWith, List.filter_append, ih, List.map_cons, List.flatten_cons]
    simp [hp]

theorem filter_pySplit {p : Char → Bool} {sep : Char} (hp : p sep = false)
    (l : List Char) :
    ((pySplit sep l).map (List.filter p)).flatten = l.filter p := by
  rw [← filter_joinWith_single hp, pySplit, pySplitAux_joinWith]
  simp

theorem pySplitAux_blank {sep : Char} : ∀ {l acc : List Char},
    (∀ c ∈ l, isSpace c = true) → (∀ c ∈ acc, isSpace c = true) →
    ∀ p ∈ pySplitAux sep l acc, isBlank p = true := by
  intro l
  induction l with
  | nil =>
    intro acc _ hacc p hp
    simp only [pySplitAux, List.mem_singleton] at hp
    subst hp
    simpa [isBlank, List.all_eq_true] using fun c hc => hacc c (List.mem_reverse.mp hc)
  | cons d rest ih =>
    intro acc hl hacc p hp
    have hrest : ∀ x ∈ rest, isSpace x = true := fun x hx => hl x (List.mem_cons_of_mem _ hx)
    have hd : isSpace d = true := hl d (List.mem_cons_self d rest)
    by_cases h : d = sep
    · simp only [pySplitAux, if_pos h, List.mem_cons] at hp
      rcases hp with hp | hp
      · subst hp
        simpa [isBlank, List.all_eq_true] using fun x hx => hacc x (List.mem_reverse.mp hx)
      · exact ih hrest (by simp) _ hp
    · simp only [pySplitAux, if_neg h] at hp
      refine ih hrest ?_ _ hp
      intro x hx
      rcases List.mem_cons.mp hx with hx | hx
      · subst hx; exact hd
      · exact hacc x hx

theorem mem_flushIf {st : Summary.SegState} {c : List Char}
    (h : c ∈ Summary.flushIf st) : c ∈ st.result ∨ c = st.cur := by
  unfold Summary.flushIf at h
  by_cases hcur : st.cur = []
  · simp [hcur] at h
    exact Or.inl h
  · simp [hcur] at h
    exact h

theorem procSentence_bounded {m : Nat} {lastS : List Char} {st : Summary.SegState}
    {s : List Char}
    (hres : ∀ r ∈ st.result, r.length ≤ m + 1) (hcur : st.cur.length ≤ m + 1) :
    (∀ r ∈ (Summary.procSentence m lastS st s).result, r.length ≤ m + 1) ∧
      (Summary.procSentence m lastS st s).cur.length ≤ m + 1 := by
  unfold Summary.procSentence
  by_cases hb : isBlank s = true
  · simpa [hb] using ⟨hres, hcur⟩
  · simp only [hb, if_false, Bool.false_eq_true]
    by_cases hlong : m < s.length
    · simp only [hlong, if_true, if_pos]
      constructor
      · intro r hr
        rcases List.mem_append.mp hr with hr | hr
        · rcases mem_flushIf hr with hr | hr
          · exact hres r hr
          · subst hr; exact hcur
        · exact Nat.le_trans (slicesFuel_mem_length m _ _ _ hr) (Nat.le_succ m)
      · simp
    · have hs : s.length ≤ m := Nat.le_of_not_lt hlong
      have hite : ((if s ≠ lastS then ['。'] else []) : List Char).length ≤ 1 := by
        by_cases he : s = lastS <;> simp [he]
      have hswp : (s ++ if s ≠ lastS then ['。'] else []).length ≤ m + 1 := by
        rw [List.length_append]
        omega
      simp only [hlong, if_false]
      by_cases hfit : (st.cur ++ (s ++ if s ≠ lastS then ['。'] else [])).length ≤ m
      · simp only [hfit, if_pos]
        exact ⟨hres, Nat.le_trans hfit (Nat.le_succ m)⟩
      · simp only [hfit, if_neg, if_false]
        refine ⟨?_, hswp⟩
        intro r hr
        rcases mem_flushIf hr with hr | hr
        · exact hres r hr
        · subst hr; exact hcur

theorem foldl_procSentence_bounded {m : Nat} {lastS : List Char} :
    ∀ (ss : List (List Char)) (st : Summary.SegState),
      (∀ r ∈ st.result, r.length ≤ m + 1) → st.cur.length ≤ m + 1 →
      (∀ r ∈ (ss.foldl (Summary.procSentence m lastS) st).result, r.length ≤ m + 1) ∧
        (ss.foldl (Summary.procSentence m lastS) st).cur.length ≤ m + 1 := by
  intro ss
  induction ss with
  | nil => intro st h1 h2; exact ⟨h1, h2⟩
  | cons s rest ih =>
    intro st h1 h2
    have step := @procSentence_bounded m lastS st s h1 h2
    exact ih _ step.1 step.2

theorem foldl_procParagraph_bounded {m : Nat} :
    ∀ (ps : List (List Char)) (st : Summary.SegState),
      (∀ r ∈ st.result, r.length ≤ m + 1) → st.cur.length ≤ m + 1 →
      (∀ r ∈ (ps.foldl (Summary.procParagraph m) st).result, r.length ≤ m + 1) ∧
        (ps.foldl (Summary.procParagraph m) st).cur.length ≤ m + 1 := by
  intro ps
  induction ps with
  | nil => intro st h1 h2; exact ⟨h1, h2⟩
  | cons p rest ih =>
    intro st h1 h2
    have step : (∀ r ∈ (Summary.procParagraph m st p).result, r.length ≤ m + 1) ∧
        (Summary.procParagraph m st p).cur.length ≤ m + 1 := by
      unfold Summary.procParagraph
      by_cases hb : isBlank p = true
      · simpa [hb] using ⟨h1, h2⟩
      · simp only [hb, if_false, Bool.false_eq_true]
        exact foldl_procSentence_bounded _ _ h1 h2
    exact ih _ step.1 step.2

/-! ### C1 — chunk length bound -/

/-- C1 counterexample: the claim that every emitted chunk has length at most
max_length fails on the code.  `split_text "aa。b" 2` (summary.py) emits the
chunk `"aa。"` of length 3, because the terminator is re-appended after the
length check; `chunk_text "aaa" 2` (summary.py) emits `"aaa。"` of length 4,
since it never force-splits; `split_text "aaaa" 2` (lambda_function.py)
emits `"aaaa\n"` of length 5, since it never splits inside a paragraph. -/
theorem split_text_max_length_exceeded_cex :
    ¬ (∀ c ∈ Summary.split_text "aa。b".data 2, c.length ≤ 2) ∧
    ¬ (∀ c ∈ Summary.chunk_text "aaa".data 2, c.length ≤ 2) ∧
    ¬ (∀ c ∈ LambdaPkg.split_text "aaaa".data 2, c.length ≤ 2) := by
  refine ⟨?_, ?_, ?_⟩ <;> decide

/-- C1 amended: for positive max_length, every chunk emitted by split_text
(summary.py) has length at most max_length + 1 (the re-appended sentence
terminator can add one character past the bound), and every slice emitted by
chunk_text (lambda_function.py) has length at most the chunk size.
chunk_text of summary.py admits no bound at all (a terminator-free sentence
is kept whole). -/
theorem segmenter_chunk_length_bound (t : List Char) (m : Nat) (_hm : 0 < m) :
    (∀ c ∈ Summary.split_text t m, c.length ≤ m + 1) ∧
    (∀ c ∈ LambdaPkg.chunk_text t m, c.length ≤ m) := by
  constructor
  · intro c hc
    unfold Summary.split_text at hc
    by_cases ht : t = []
    · simp [ht] at hc
    · rw [if_neg ht] at hc
      have hfold := @foldl_procParagraph_bounded m (pySplit '\n' t) ⟨[], []⟩
        (by simp) (by simp)
      rcases mem_flushIf hc with h | h
      · exact hfold.1 c h
      · subst h; exact hfold.2
  · intro c hc
    exact slicesFuel_mem_length m _ _ _ hc

/-- C1 witness: the amended bound evaluated on the counterexample input. -/
theorem segmenter_chunk_length_bound_witness :
    0 < 2 ∧ ("aa。".data).length ≤ 2 + 1 :=
  ⟨by decide,
    (segmenter_chunk_length_bound "aa。b".data 2 (by decide)).1 "aa。".data (by decide)⟩

/-! ### C10 — truncate_description -/

/-- C10: truncate_description returns its input unchanged when it has at
most 1500 characters, and otherwise returns the first 1497 characters
followed by "...", a string of length exactly 1500; the result never
exceeds 1500 characters. -/
theorem truncate_description_spec (d : List Char) :
    (truncate_description d).length ≤ 1500 ∧
    (d.length ≤ 1500 → truncate_description d = d) ∧
    (1500 < d.length →
      truncate_description d = d.take 1497 ++ "...".data ∧
        (truncate_description d).length = 1500) := by
  unfold truncate_description MAX_DESCRIPTION_LENGTH
  by_cases h : 1500 < d.length
  · rw [if_pos h]
    have hlen : (d.take (1500 - 3) ++ "...".data).length = 1500 := by
      rw [List.length_append, List.length_take, dotData_length]
      omega
    exact ⟨Nat.le_of_eq hlen, fun hle => absurd h (Nat.not_lt.mpr hle),
      fun _ => ⟨rfl, hlen⟩⟩
  · rw [if_neg h]
    exact ⟨Nat.le_of_not_lt h, fun _ => rfl, fun hgt => absurd hgt h⟩

/-- C10 witness: a 1501-character description is truncated to exactly 1500
characters. -/
theorem truncate_description_spec_witness :
    (truncate_description (List.replicate 1501 'a')).length = 1500 :=
  ((truncate_description_spec (List.replicate 1501 'a')).2.2
    (by rw [List.length_replicate]; decide)).2

/-! ### C3 — idempotent sink writer -/

/-- C3: before writing, save_to_notion queries the store for a document
whose URL property contains the video id and creates nothing when one is
found; writing once into a store with no document for the key returns
Created, and writing again against the resulting store returns Skipped and
leaves exactly one stored document for that key.  The hypothesis `hurl`
records that the stored URL property is the watch URL built from the video
id (as get_latest_videos constructs it), which is what makes the created
page findable by the duplicate check. -/
theorem save_to_notion_idempotent (store : List LambdaPkg.StoredPage)
    (v : LambdaPkg.VideoInfo)
    (h0 : LambdaPkg.queryUrlContains store v.video_id = [])
    (hurl : v.url = watchUrl v.video_id) :
    (LambdaPkg.save_to_notion store v).2 = LambdaPkg.WriteOutcome.Created ∧
    LambdaPkg.save_to_notion (LambdaPkg.save_to_notion store v).1 v =
      ((LambdaPkg.save_to_notion store v).1, LambdaPkg.WriteOutcome.Skipped) ∧
    (LambdaPkg.queryUrlContains (LambdaPkg.save_to_notion store v).1 v.video_id).length
      = 1 ∧
    ∀ s : List LambdaPkg.StoredPage,
      LambdaPkg.queryUrlContains s v.video_id ≠ [] →
      LambdaPkg.save_to_notion s v = (s, LambdaPkg.WriteOutcome.Skipped) := by
  have hmkurl : isInfixB v.video_id (LambdaPkg.mkPage v).url = true := by
    show isInfixB v.video_id v.url = true
    rw [hurl]
    exact isInfixB_append_self _ _
  have h1 : LambdaPkg.save_to_notion store v =
      (store ++ [LambdaPkg.mkPage v], LambdaPkg.WriteOutcome.Created) := by
    unfold LambdaPkg.save_to_notion
    rw [h0]
  have hq1 : LambdaPkg.queryUrlContains (store ++ [LambdaPkg.mkPage v]) v.video_id =
      [LambdaPkg.mkPage v] := by
    unfold LambdaPkg.queryUrlContains at h0 ⊢
    rw [List.filter_append, h0]
    simp [hmkurl]
  refine ⟨by rw [h1], ?_, ?_, ?_⟩
  · rw [h1]
    show LambdaPkg.save_to_notion (store ++ [LambdaPkg.mkPage v]) v = _
    unfold LambdaPkg.save_to_notion
    rw [hq1]
  · rw [h1]
    show (LambdaPkg.queryUrlContains (store ++ [LambdaPkg.mkPage v]) v.video_id).length = 1
    rw [hq1]
    rfl
  · intro s hs
    unfold LambdaPkg.save_to_notion
    cases hq : LambdaPkg.queryUrlContains s v.video_id with
    | nil => exact absurd hq hs
    | cons a t => rfl

/-- C3 witness: a fresh write of a concrete video into the empty store
returns Created. -/
theorem save_to_notion_idempotent_witness :
    (LambdaPkg.save_to_notion []
      ⟨"x".data, "t".data, "d".data, "p".data, "ch".data,
        watchUrl "x".data, "th".data, []⟩).2 = LambdaPkg.WriteOutcome.Created :=
  (save_to_notion_idempotent [] _ rfl rfl).1

/-! ### C9 — empty and whitespace-only input -/

/-- C9 counterexample: whitespace-only input does not yield the empty
sequence for the lambda_function.py segmenter: `split_text " " 2000`
returns the single chunk `"\n"`, because that variant preserves blank lines
as layout markers. -/
theorem whitespace_only_input_nonempty_cex :
    isBlank " ".data = true ∧ LambdaPkg.split_text " ".data 2000 ≠ [] := by
  exact ⟨by decide, by decide⟩

theorem foldl_procParagraph_blank {m : Nat} :
    ∀ (ps : List (List Char)) (st : Summary.SegState),
      (∀ p ∈ ps, isBlank p = true) →
      ps.foldl (Summary.procParagraph m) st = st := by
  intro ps
  induction ps with
  | nil => intro st _; rfl
  | cons p rest ih =>
    intro st hps
    have hp : isBlank p = true := hps p (List.mem_cons_self p rest)
    have hstep : Summary.procParagraph m st p = st := by
      unfold Summary.procParagraph
      rw [if_pos hp]
    rw [List.foldl_cons, hstep]
    exact ih st fun q hq => hps q (List.mem_cons_of_mem _ hq)

/-- C9 amended: segmenting the empty string yields the empty sequence in
both variants, and whitespace-only input yields the empty sequence for
split_text of summary.py; split_text of lambda_function.py instead turns a
whitespace-only input into newline-only chunks (see the counterexample). -/
theorem empty_and_blank_input_segmentation (m : Nat) :
    Summary.split_text [] m = [] ∧ LambdaPkg.split_text [] m = [] ∧
    ∀ t : List Char, isBlank t = true → Summary.split_text t m = [] := by
  refine ⟨rfl, rfl, ?_⟩
  intro t ht
  unfold Summary.split_text
  by_cases h0 : t = []
  · rw [if_pos h0]
  · rw [if_neg h0]
    have hblank : ∀ p ∈ pySplit '\n' t, isBlank p = true :=
      pySplitAux_blank (List.all_eq_true.mp ht) (by simp)
    rw [foldl_procParagraph_blank _ _ hblank]
    rfl

/-- C9 witness: a whitespace-only input under the summary.py segmenter. -/
theorem empty_and_blank_input_segmentation_witness :
    Summary.split_text " ".data 7 = [] :=
  (empty_and_blank_input_segmentation 7).2.2 " ".data (by decide)

/-! ### C8 — link-run interleaving preserves the line -/

theorem runContents_append (a b : List RichText) :
    runContents (a ++ b) = runContents a ++ runContents b := by
  simp [runContents]

theorem runContents_cons (r : RichText) (l : List RichText) :
    runContents (r :: l) = runText r ++ runContents l := by
  simp [runContents]

theorem runContents_textIf (p : List Char) :
    runContents (if p ≠ [] then [RichText.text p] else []) = p := by
  by_cases hp : p = [] <;> simp [hp, runContents, runText]

theorem runContents_interleave :
    ∀ ps us : List (List Char), runContents (interleaveRuns ps us) = altJoin ps us := by
  intro ps
  induction ps with
  | nil => intro us; cases us <;> rfl
  | cons p rest ih =>
    intro us
    cases us with
    | nil =>
      rw [interleaveRuns, runContents_append, runContents_textIf, ih, altJoin]
    | cons u ut =>
      rw [interleaveRuns, runContents_append, runContents_textIf, runContents_cons, ih]
      show p ++ (u ++ altJoin rest ut) = p ++ u ++ altJoin rest ut
      rw [List.append_assoc]

theorem reSplitFindF_altJoin :
    ∀ (fuel : Nat) (l acc : List Char),
      altJoin (reSplitFindF fuel l acc).1 (reSplitFindF fuel l acc).2 =
        acc.reverse ++ l := by
  intro fuel
  induction fuel with
  | zero =>
    intro l acc
    cases l with
    | nil => simp [reSplitFindF, altJoin]
    | cons c rest => simp [reSplitFindF, altJoin]
  | succ fuel ih =>
    intro l acc
    cases l with
    | nil => simp [reSplitFindF, altJoin]
    | cons c rest =>
      by_cases hn : headUrlLen (c :: rest) = 0
      · have hstep : reSplitFindF (fuel + 1) (c :: rest) acc =
            reSplitFindF fuel rest (c :: acc) := by
          simp [reSplitFindF, hn]
        rw [hstep, ih]
        simp
      · simp only [reSplitFindF, hn, if_neg hn, altJoin, ih]
        simp [List.take_append_drop]

/-- C8: with link detection enabled, splitting a line into link-annotated
runs (URL matches) interleaved with plain-text runs preserves the line: the
concatenation of the run contents, in order, is the original line. -/
theorem line_rich_text_concat_eq_line (line : List Char) :
    runContents (LambdaPkg.lineRichText line) = line := by
  unfold LambdaPkg.lineRichText reSplitFind
  rw [runContents_interleave, reSplitFindF_altJoin]
  rfl

/-! ### C2 — chunk summarizer record shape -/

theorem summaryRecord_chunk_number
    (gen : List Char → Except (List Char) (List Char)) (n : Nat) (ic : Nat × List Char) :
    (LambdaPkg.summaryRecord gen n ic).chunk_number = ic.1 := by
  unfold LambdaPkg.summaryRecord
  cases gen (LambdaPkg.chunkPrompt ic.2) <;> rfl

theorem summaryRecord_total
    (gen : List Char → Except (List Char) (List Char)) (n : Nat) (ic : Nat × List Char) :
    (LambdaPkg.summaryRecord gen n ic).total_chunks = n := by
  unfold LambdaPkg.summaryRecord
  cases gen (LambdaPkg.chunkPrompt ic.2) <;> rfl

theorem summarize_map_chunk_number
    (gen : List Char → Except (List Char) (List Char)) (n : Nat) :
    ∀ (l : List (List Char)) (i : Nat),
      ((List.enumFrom i l).map (LambdaPkg.summaryRecord gen n)).map
          (fun r => r.chunk_number) =
        List.range' i l.length := by
  intro l
  induction l with
  | nil => intro i; rfl
  | cons c rest ih =>
    intro i
    simp [List.enumFrom, List.range'_succ, summaryRecord_chunk_number, ih]

theorem summarize_map_total
    (gen : List Char → Except (List Char) (List Char)) (n : Nat) :
    ∀ (l : List (List Char)) (i : Nat),
      ((List.enumFrom i l).map (LambdaPkg.summaryRecord gen n)).map
          (fun r => r.total_chunks) =
        List.replicate l.length n := by
  intro l
  induction l with
  | nil => intro i; rfl
  | cons c rest ih =>
    intro i
    simp [List.enumFrom, List.replicate_succ, summaryRecord_total, ih]

/-- C2: for every generator (any mix of per-chunk successes and failures)
and every caption, summarize_long_caption (lambda_function.py) returns
exactly one record per chunk, in chunk order (chunk_number runs 1..n), with
total_chunks equal to the chunk count on every record; a failing chunk is
recorded as data and never aborts the remaining chunks, which is why the
shape holds for every generator. -/
theorem summarize_records_length_order_total
    (gen : List Char → Except (List Char) (List Char)) (caption : List Char) :
    (LambdaPkg.summarize_long_caption gen caption).length =
      (LambdaPkg.chunk_text caption 3000).length ∧
    (LambdaPkg.summarize_long_caption gen caption).map (fun r => r.chunk_number) =
      List.range' 1 (LambdaPkg.chunk_text caption 3000).length ∧
    (LambdaPkg.summarize_long_caption gen caption).map (fun r => r.total_chunks) =
      List.replicate (LambdaPkg.chunk_text caption 3000).length
        (LambdaPkg.chunk_text caption 3000).length := by
  simp only [LambdaPkg.summarize_long_caption]
  refine ⟨?_, ?_, ?_⟩
  · simp
  · exact summarize_map_chunk_number gen _ _ 1
  · exact summarize_map_total gen _ _ 1

/-! ### C6 — rate-limit pause between requests -/

/-- C6 counterexample: `time.sleep(2)` sits inside the `try` block, so a
failing generation call is not followed by the pause.  With an always-failing
generator and a 3001-character caption (two chunks), the event trace is
`[request 1, request 2]`: two consecutive requests with no pause between
them, refuting the claim that the delay happens after every request. -/
theorem slices_replicate_succ (a : Char) (k : Nat) :
    slices (k + 1) (List.replicate (k + 2) a) = [List.replicate (k + 1) a, [a]] := by
  rw [slices, List.length_replicate,
    show List.replicate (k + 2) a = a :: List.replicate (k + 1) a from rfl]
  rw [slicesFuel]
  have htake : (a :: List.replicate (k + 1) a).take (k + 1) = List.replicate (k + 1) a := by
    rw [show a :: List.replicate (k + 1) a = List.replicate (k + 2) a from rfl,
      List.take_replicate]
    congr 1
    omega
  have hdrop : (a :: List.replicate (k + 1) a).drop (k + 1) = [a] := by
    rw [show a :: List.replicate (k + 1) a = List.replicate (k + 2) a from rfl,
      List.drop_replicate, show k + 2 - (k + 1) = 1 from by omega]
    rfl
  rw [htake, hdrop, slicesFuel]
  have ht2 : ([a] : List Char).take (k + 1) = [a] := by simp
  have hd2 : ([a] : List Char).drop (k + 1) = [] := by simp
  rw [ht2, hd2]
  cases k <;> rfl

theorem rate_limit_pause_missing_on_failure_cex :
    LambdaPkg.noBackToBack (LambdaPkg.summarizeEvents (fun _ => Except.error [])
      (List.replicate 3001 'a')) = false := by
  have hchunks : LambdaPkg.chunk_text (List.replicate 3001 'a') 3000 =
      [List.replicate 3000 'a', ['a']] := by
    show slices 3000 (List.replicate 3001 'a') = _
    rw [show (3001 : Nat) = 2999 + 2 from by norm_num,
      show (3000 : Nat) = 2999 + 1 from by norm_num]
    exact slices_replicate_succ 'a' 2999
  unfold LambdaPkg.summarizeEvents
  rw [hchunks]
  rfl

theorem noBackToBack_ok_aux
    (gen : List Char → Except (List Char) (List Char))
    (h : ∀ p, ∃ s, gen p = Except.ok s) :
    ∀ (l : List (List Char)) (i : Nat),
      LambdaPkg.noBackToBack
        (LambdaPkg.Ev.sleep 2 ::
          (List.enumFrom i l).flatMap (LambdaPkg.chunkEvents gen)) = true := by
  intro l
  induction l with
  | nil => intro i; rfl
  | cons c rest ih =>
    intro i
    obtain ⟨s, hs⟩ := h (LambdaPkg.chunkPrompt c)
    simp only [List.enumFrom, List.flatMap_cons, LambdaPkg.chunkEvents, hs]
    simp [LambdaPkg.noBackToBack, LambdaPkg.twoReqs, ih]

/-- C6 amended: the fixed pause is guaranteed only after a successful
request; when every generation call succeeds, no two consecutive requests
happen without the pause between them.  (The counterexample shows the
as-stated claim fails when a call raises.) -/
theorem rate_limit_pause_after_success
    (gen : List Char → Except (List Char) (List Char)) (caption : List Char)
    (h : ∀ p, ∃ s, gen p = Except.ok s) :
    LambdaPkg.noBackToBack (LambdaPkg.summarizeEvents gen caption) = true := by
  unfold LambdaPkg.summarizeEvents
  cases hc : LambdaPkg.chunk_text caption 3000 with
  | nil => rfl
  | cons c rest =>
    obtain ⟨s, hs⟩ := h (LambdaPkg.chunkPrompt c)
    simp only [List.enumFrom, List.flatMap_cons, LambdaPkg.chunkEvents, hs]
    simp [LambdaPkg.noBackToBack, LambdaPkg.twoReqs, noBackToBack_ok_aux gen h rest 2]

/-- C6 witness: an all-success generator over a one-chunk caption produces a
trace with no back-to-back requests. -/
theorem rate_limit_pause_after_success_witness :
    LambdaPkg.noBackToBack
      (LambdaPkg.summarizeEvents (fun p => Except.ok p) "ab".data) = true :=
  rate_limit_pause_after_success _ _ (fun p => ⟨p, rfl⟩)

/-! ### C5 — aggregation fallback -/

/-- C5: whenever the final aggregation call fails (for any mix of per-chunk
outcomes, including all chunks failing), summarize_long_caption (summary.py)
returns the deterministic fallback — the header line followed by every
per-chunk record (each carrying its chunk marker) joined by blank-line
separators — and that string is never empty; the fallback is pure string
formatting and cannot itself raise. -/
theorem aggregate_fallback_deterministic_nonempty
    (genChunk genFinal : List Char → Except (List Char) (List Char))
    (caption e : List Char)
    (h : genFinal (Summary.finalPrompt
        (Summary.mkSummaries genChunk (Summary.chunk_text caption 500))) =
      Except.error e) :
    Summary.summarize_long_caption genChunk genFinal caption =
      Summary.fallbackHeader ++
        joinWith "\n\n".data
          (Summary.mkSummaries genChunk (Summary.chunk_text caption 500)) ∧
    Summary.summarize_long_caption genChunk genFinal caption ≠ [] := by
  have hmain : Summary.summarize_long_caption genChunk genFinal caption =
      Summary.fallbackHeader ++
        joinWith "\n\n".data
          (Summary.mkSummaries genChunk (Summary.chunk_text caption 500)) := by
    simp only [Summary.summarize_long_caption]
    rw [h]
  refine ⟨hmain, ?_⟩
  rw [hmain]
  intro hcon
  exact absurd (List.append_eq_nil.mp hcon).1 (by decide)

/-- C5 witness: with every generation call failing, the one-chunk caption
"a" still produces a non-empty fallback summary. -/
theorem aggregate_fallback_deterministic_nonempty_witness :
    Summary.summarize_long_caption (fun _ => Except.error [])
      (fun _ => Except.error []) "a".data ≠ [] :=
  (aggregate_fallback_deterministic_nonempty (fun _ => Except.error [])
    (fun _ => Except.error []) "a".data [] rfl).2

/-! ### C7 — what the aggregation prompt embeds -/

set_option maxRecDepth 40000 in
/-- C7 counterexample: the failure marker of a failed chunk is embedded in
the aggregation prompt.  With an always-failing generator over the one-chunk
caption "b", the final prompt contains the failure record
`"=== チャンク 1 の要約に失敗 ==="`, refuting the claim that contents of
failed records are not embedded. -/
theorem final_prompt_embeds_failed_record_cex :
    List.IsInfix (Summary.failMarker 1)
      (Summary.finalPrompt (Summary.mkSummaries (fun _ => Except.error [])
        (Summary.chunk_text "b".data 500))) := by
  refine ⟨Summary.finalPromptPre, Summary.finalPromptSuf, ?_⟩
  decide

theorem isInfix_append_left (x l r : List Char) (h : List.IsInfix l r) :
    List.IsInfix l (x ++ r) := by
  obtain ⟨s, t, hst⟩ := h
  exact ⟨x ++ s, t, by rw [← hst]; simp [List.append_assoc]⟩

theorem isInfix_append_right (l r y : List Char) (h : List.IsInfix l r) :
    List.IsInfix l (r ++ y) := by
  obtain ⟨s, t, hst⟩ := h
  exact ⟨s, t ++ y, by rw [← hst]; simp [List.append_assoc]⟩

theorem mem_isInfix_joinWith (sep : List Char) :
    ∀ (L : List (List Char)) (x : List Char), x ∈ L →
      List.IsInfix x (joinWith sep L) := by
  intro L
  induction L with
  | nil => intro x hx; cases hx
  | cons a rest ih =>
    intro x hx
    rcases List.mem_cons.mp hx with hx | hx
    · subst hx
      cases rest with
      | nil => exact ⟨[], [], by simp [joinWith]⟩
      | cons b t => exact ⟨[], sep ++ joinWith sep (b :: t), by simp [joinWith]⟩
    · cases rest with
      | nil => cases hx
      | cons b t =>
        have h1 := isInfix_append_left a _ _
          (isInfix_append_left sep _ _ (ih x hx))
        simpa [joinWith] using h1

/-- C7 amended: the aggregation step builds exactly one generation request
(one genFinal call on one prompt, structurally), and that prompt embeds
every per-chunk record in index order — including the failure markers of
failed chunks, which the code does not filter out of `summaries`. -/
theorem final_prompt_embeds_every_record
    (genChunk : List Char → Except (List Char) (List Char))
    (caption s : List Char)
    (hs : s ∈ Summary.mkSummaries genChunk (Summary.chunk_text caption 500)) :
    List.IsInfix s
      (Summary.finalPrompt
        (Summary.mkSummaries genChunk (Summary.chunk_text caption 500))) := by
  unfold Summary.finalPrompt
  exact isInfix_append_right _ _ _
    (isInfix_append_left _ _ _ (mem_isInfix_joinWith "\n\n".data _ s hs))

/-- C7 witness: the failure record of the failed single chunk of caption
"a" is embedded in the aggregation prompt. -/
theorem final_prompt_embeds_every_record_witness :
    List.IsInfix (Summary.failMarker 1)
      (Summary.finalPrompt (Summary.mkSummaries (fun _ => Except.error [])
        (Summary.chunk_text "a".data 500))) :=
  final_prompt_embeds_every_record (fun _ => Except.error []) "a".data
    (Summary.failMarker 1) (by decide)

/-! ### C4 — what the concatenation of chunks preserves -/

theorem flushIf_flatten (st : Summary.SegState) :
    (Summary.flushIf st).flatten = st.result.flatten ++ st.cur := by
  unfold Summary.flushIf
  by_cases h : st.cur = [] <;> simp [h]

theorem procSentence_content {m : Nat} (hm : 1 ≤ m) (lastS : List Char)
    (st : Summary.SegState) (s : List Char) :
    Summary.segContent (Summary.procSentence m lastS st s) =
      Summary.segContent st ++ s.filter keepChar := by
  by_cases hb : isBlank s = true
  · rw [blank_filter_keep hb, List.append_nil]
    unfold Summary.procSentence
    rw [if_pos hb]
  · have hswpf : ((if s ≠ lastS then ['。'] else []) : List Char).filter keepChar = [] := by
      by_cases he : s = lastS
      · simp [he]
      · simp only [he, ne_eq, not_false_iff, ite_true]
        decide
    have hterm : keepChar '。' = false := by decide
    by_cases hlong : m < s.length
    · have hstate : Summary.procSentence m lastS st s =
          ⟨Summary.flushIf st ++ slices m s, []⟩ := by
        simp only [Summary.procSentence, hb, hlong, if_true, if_false,
          Bool.false_eq_true, ite_false, ite_true]
      rw [hstate]
      unfold Summary.segContent
      simp only [List.append_nil, List.flatten_append, flushIf_flatten]
      rw [slices, slicesFuel_flatten m hm s.length s (Nat.le_refl _)]
      simp [List.filter_append, List.append_assoc]
    · by_cases hfit : (st.cur ++ (s ++ if s ≠ lastS then ['。'] else [])).length ≤ m
      · have hstate : Summary.procSentence m lastS st s =
            { st with cur := st.cur ++ (s ++ if s ≠ lastS then ['。'] else []) } := by
          simp only [Summary.procSentence, hb, hlong, hfit, if_true, if_false,
            Bool.false_eq_true, ite_false, ite_true]
        rw [hstate]
        unfold Summary.segContent
        simp [List.filter_append, hswpf, hterm, List.append_assoc]
      · have hstate : Summary.procSentence m lastS st s =
            ⟨Summary.flushIf st, s ++ if s ≠ lastS then ['。'] else []⟩ := by
          simp only [Summary.procSentence, hb, hlong, hfit, if_true, if_false,
            Bool.false_eq_true, ite_false, ite_true]
        rw [hstate]
        unfold Summary.segContent
        rw [flushIf_flatten]
        simp [List.filter_append, hswpf, hterm, List.append_assoc]

theorem foldl_procSentence_content {m : Nat} (hm : 1 ≤ m) (lastS : List Char) :
    ∀ (ss : List (List Char)) (st : Summary.SegState),
      Summary.segContent (ss.foldl (Summary.procSentence m lastS) st) =
        Summary.segContent st ++ (ss.map (List.filter keepChar)).flatten := by
  intro ss
  induction ss with
  | nil => intro st; simp
  | cons s rest ih =>
    intro st
    rw [List.foldl_cons, ih, procSentence_content hm]
    simp [List.append_assoc]

theorem procParagraph_content {m : Nat} (hm : 1 ≤ m) (st : Summary.SegState)
    (p : List Char) :
    Summary.segContent (Summary.procParagraph m st p) =
      Summary.segContent st ++ p.filter keepChar := by
  by_cases hb : isBlank p = true
  · rw [blank_filter_keep hb, List.append_nil]
    unfold Summary.procParagraph
    rw [if_pos hb]
  · have hstate : Summary.procParagraph m st p =
        (pySplit '。' p).foldl
          (Summary.procSentence m ((pySplit '。' p).getLastD [])) st := by
      simp only [Summary.procParagraph, hb, Bool.false_eq_true, ite_false]
    rw [hstate, foldl_procSentence_content hm]
    congr 1
    exact filter_pySplit (by decide) p

theorem foldl_procParagraph_content {m : Nat} (hm : 1 ≤ m) :
    ∀ (ps : List (List Char)) (st : Summary.SegState),
      Summary.segContent (ps.foldl (Summary.procParagraph m) st) =
        Summary.segContent st ++ (ps.map (List.filter keepChar)).flatten := by
  intro ps
  induction ps with
  | nil => intro st; simp
  | cons p rest ih =>
    intro st
    rw [List.foldl_cons, ih, procParagraph_content hm]
    simp [List.append_assoc]

theorem split_text_content (t : List Char) (m : Nat) (hm : 1 ≤ m) :
    ((Summary.split_text t m).flatten).filter keepChar = t.filter keepChar := by
  unfold Summary.split_text
  by_cases ht : t = []
  · rw [if_pos ht, ht]
    rfl
  · rw [if_neg ht, flushIf_flatten]
    have h := foldl_procParagraph_content hm (pySplit '\n' t) ⟨[], []⟩
    unfold Summary.segContent at h
    simp only [List.flatten_nil, List.nil_append, List.filter_nil] at h
    rw [h, filter_pySplit (by decide) t]

theorem chunkStep_content (cs : Nat) (st : Summary.ChunkState) (s : List Char) :
    Summary.chunkContent (Summary.chunkStep cs st s) =
      Summary.chunkContent st ++ s.filter keepChar := by
  by_cases hb : isBlank s = true
  · rw [blank_filter_keep hb, List.append_nil]
    unfold Summary.chunkStep
    rw [if_pos hb]
  · have hs2 : (s ++ ['。']).filter keepChar = s.filter keepChar := by
      rw [List.filter_append]
      have h1 : (['。'] : List Char).filter keepChar = [] := by decide
      rw [h1, List.append_nil]
    by_cases hov : cs < st.curLen + (s ++ ['。']).length
    · have hstate : Summary.chunkStep cs st s =
          { chunks := if st.cur ≠ [] then st.chunks ++ [st.cur] else st.chunks
            cur := s ++ ['。'], curLen := (s ++ ['。']).length } := by
        simp only [Summary.chunkStep, hb, hov, if_true, Bool.false_eq_true,
          ite_false, ite_true]
      rw [hstate]
      unfold Summary.chunkContent
      by_cases hc : st.cur = [] <;>
        simp [hc, List.filter_append, hs2, List.append_assoc]
    · have hstate : Summary.chunkStep cs st s =
          { st with cur := st.cur ++ (s ++ ['。']),
                    curLen := st.curLen + (s ++ ['。']).length } := by
        simp only [Summary.chunkStep, hb, hov, Bool.false_eq_true, ite_false]
      rw [hstate]
      unfold Summary.chunkContent
      simp [List.filter_append, hs2, List.append_assoc]

theorem foldl_chunkStep_content (cs : Nat) :
    ∀ (ss : List (List Char)) (st : Summary.ChunkState),
      Summary.chunkContent (ss.foldl (Summary.chunkStep cs) st) =
        Summary.chunkContent st ++ (ss.map (List.filter keepChar)).flatten := by
  intro ss
  induction ss with
  | nil => intro st; simp
  | cons s rest ih =>
    intro st
    rw [List.foldl_cons, ih, chunkStep_content]
    simp [List.append_assoc]

theorem chunk_text_content (t : List Char) (cs : Nat) :
    ((Summary.chunk_text t cs).flatten).filter keepChar = t.filter keepChar := by
  unfold Summary.chunk_text
  have h := foldl_chunkStep_content cs (pySplit '。' t) ⟨[], [], 0⟩
  unfold Summary.chunkContent at h
  simp only [List.flatten_nil, List.nil_append, List.filter_nil] at h
  set stF := (pySplit '。' t).foldl (Summary.chunkStep cs) ⟨[], [], 0⟩ with hstF
  by_cases hc : stF.cur = []
  · rw [if_neg (not_not_intro hc)]
    rw [← List.append_nil stF.chunks.flatten, ← hc, h,
      filter_pySplit (by decide) t]
  · rw [if_pos hc]
    rw [List.flatten_append]
    simp only [List.flatten_cons, List.flatten_nil, List.append_nil]
    rw [h, filter_pySplit (by decide) t]

/-- C4 counterexample: concatenating the chunks does not reproduce the
input with only line breaks removed.  For `"a。a"` (summary.py split_text),
the mid-text terminator after the first sentence is dropped — the sentence
equals `sentences[-1]` by value, so no terminator is re-appended — giving
`"aa"`, while the input minus line breaks is `"a。a"`; the dropped `。` is
neither a line break nor whitespace. -/
theorem segmenter_concat_drops_non_newline_cex :
    ¬ List.Sublist (("a。a".data).filter (fun c => !(c == '\n')))
      ((Summary.split_text "a。a".data 2000).flatten) := by
  intro h
  exact absurd h.length_le (by decide)

/-- C4 amended: concatenating the chunks, in order, preserves exactly the
non-whitespace, non-terminator characters of the input, in their original
order: filtering both sides to those characters gives equality.  Dropped
characters are only whitespace (blank paragraphs and fragments, normalized
line breaks) and sentence terminators; nothing is ever dropped beyond that
and nothing else is inserted.  This holds for split_text and chunk_text of
summary.py, for every positive max_length. -/
theorem segmenter_concat_preserves_content (t : List Char) (m : Nat) (hm : 0 < m) :
    ((Summary.split_text t m).flatten).filter keepChar = t.filter keepChar ∧
    ((Summary.chunk_text t m).flatten).filter keepChar = t.filter keepChar :=
  ⟨split_text_content t m hm, chunk_text_content t m⟩

/-- C4 witness: the amended round-trip evaluated at a concrete mixed input. -/
theorem segmenter_concat_preserves_content_witness :
    ((Summary.split_text "x。y\nz".data 3).flatten).filter keepChar =
      ("x。y\nz".data).filter keepChar :=
  (segmenter_concat_preserves_content "x。y\nz".data 3 (by decide)).1
